import Mathlib

/-!
Verification development for the clipsperiments utility library.

The repository has two components:
* `src/utils/datasets.py` — dataset normalizers (`get_yoga_dataset`,
  `get_intel_scene_dataset`, `get_fruits_dataset`) that download a Kaggle
  archive on demand, repair the extracted directory layout, and build a
  class-name-to-file-list mapping.
* `src/utils/inference.py` — inference marshalling
  (`evaluate_prompt_set_for_classes`, `get_embeddings_per_class`) that runs an
  opaque pretrained CLIP model over a class map and reduces its output into
  predictions or stacked embeddings.

We embed the file-system bookkeeping of the normalizers over an explicit
file-system model (a list of path entries), and the inference marshalling over
abstract model capabilities (a logit function and an embedding function),
mirroring the Python control flow.
-/

namespace Clipsperiments

/-! ## File-system model

A file system is a list of entries; each entry is an absolute path (list of
path components, rooted at the project directory) together with a flag saying
whether it is a directory.  `pathlib.Path.exists` is membership of the path,
`glob` enumerates entries in list order (the OS enumeration order is
unspecified, which the list order models). -/

structure FSEntry where
  path : List String
  isDir : Bool
deriving DecidableEq, Repr

abbrev FS := List FSEntry

/-- `Path.exists()`: some entry (file or directory) has exactly this path. -/
def pathExists (fs : FS) (p : List String) : Bool :=
  fs.any (fun e => decide (e.path = p))

/-- `Path.is_dir()`-style existence: a directory entry has exactly this path. -/
def dirExists (fs : FS) (p : List String) : Bool :=
  fs.any (fun e => decide (e.path = p) && e.isDir)

/-- `isUnder root p` : `p` lies in the subtree rooted at `root`
(`root` itself included); i.e. `root` is an initial segment of `p`. -/
def isUnder : List String → List String → Bool
  | [], _ => true
  | _ :: _, [] => false
  | a :: as, b :: bs => decide (a = b) && isUnder as bs

/-- Names of the directory children of `p` (`p.glob("*")` filtered by
`is_dir()`, as in `get_yoga_dataset`). -/
def childDirNames (fs : FS) (p : List String) : List String :=
  fs.filterMap (fun e =>
    if e.isDir && decide (e.path.length = p.length + 1) && isUnder p e.path then
      e.path.getLast?
    else none)

/-- Names of all children of `p` (`p.glob("*")` with no filter, as in the
fruits merge loop). -/
def childNames (fs : FS) (p : List String) : List String :=
  fs.filterMap (fun e =>
    if decide (e.path.length = p.length + 1) && isUnder p e.path then
      e.path.getLast?
    else none)

/-- One entry's relocation under `shutil.move(src, dst)` when the destination
is known not to be an existing directory: everything in the subtree rooted at
`src` is re-rooted at `dst`. -/
def rebaseEntry (src dst : List String) (e : FSEntry) : FSEntry :=
  if isUnder src e.path then { e with path := dst ++ e.path.drop src.length }
  else e

/-- `shutil.move(src, dst)`: if `dst` exists and is a directory, `src` is
moved inside it (landing at `dst/<src-name>`); otherwise the subtree at `src`
is re-rooted at `dst`. -/
def fsMove (fs : FS) (src dst : List String) : FS :=
  if dirExists fs dst then
    fs.map (rebaseEntry src (dst ++ src.drop (src.length - 1)))
  else
    fs.map (rebaseEntry src dst)

/-- The pointwise effect on one entry of moving, in order, every child `n` of
the wrapper `w` to `d/<n>` (used to characterise the wrapper-removal fold of
`get_yoga_dataset`). -/
def multiRebase (w d : List String) : List String → FSEntry → FSEntry
  | [], e => e
  | n :: rest, e => multiRebase w d rest (rebaseEntry (w ++ [n]) (d ++ [n]) e)

/-- `shutil.rmtree(p, ignore_errors=True)`: removes the subtree rooted at `p`
when `p` is a directory; on anything else the error is swallowed and the file
system is unchanged. -/
def rmtreeIE (fs : FS) (p : List String) : FS :=
  if dirExists fs p then fs.filter (fun e => !(isUnder p e.path)) else fs

/-- `os.makedirs(p, exist_ok=True)`: create every missing component of `p` as
a directory. -/
def mkdirs (fs : FS) (p : List String) : FS :=
  (List.range p.length).foldl
    (fun acc k =>
      let q := p.take (k + 1)
      if pathExists acc q then acc else acc ++ [⟨q, true⟩])
    fs

/-- Does the final path component match `*.<ext>`? -/
def nameMatches (p : List String) (ext : String) : Bool :=
  match p.getLast? with
  | some n => n.endsWith ("." ++ ext)
  | none => false

/-- `dir.glob(f"*.{ext}")` (non-recursive) or `dir.glob(f"**/*.{ext}")`
(recursive): paths strictly below `dir` whose last component matches the
extension; non-recursively only direct children are matched. -/
def globFiles (fs : FS) (dir : List String) (ext : String) (recursive : Bool) :
    List (List String) :=
  fs.filterMap (fun e =>
    if recursive then
      if isUnder dir e.path && decide (dir.length < e.path.length)
          && nameMatches e.path ext then
        some e.path
      else none
    else
      if decide (e.path.length = dir.length + 1) && isUnder dir e.path
          && nameMatches e.path ext then
        some e.path
      else none)

/-! ## Dataset normalizers (`src/utils/datasets.py`) -/

/-- The opaque `OSError` raised by the Kaggle client on credential problems. -/
structure OSErr where
  msg : String
deriving DecidableEq, Repr

/-- Errors a normalizer call can end with: the re-raised authentication
`OSError`, or the `ValueError` for a missing expected class. -/
inductive DsErr where
  | auth (e : OSErr)
  | missingClass (c : String)
deriving DecidableEq, Repr

/-- A class map as the normalizers build it: insertion-ordered association
list from class name to the list of discovered file paths. -/
abbrev ClassMapFS := List (String × List (List String))

/-- The external Kaggle capability: an authentication outcome and the effect
of `dataset_download_files` (fetch-and-unzip) on local storage. -/
structure KaggleEnv where
  auth : Except OSErr Unit
  download : FS → FS

/-- Observable outcome of one normalizer call: the returned class map or the
raised error, the final file-system state, and effect counters (network
downloads, `shutil.move` calls, authentication attempts) plus printed
guidance messages. -/
structure RunOut where
  result : Except DsErr ClassMapFS
  fs : FS
  downloads : Nat
  moves : Nat
  authCalls : Nat
  messages : List String
deriving Repr

/-- The guidance message printed before re-raising an authentication error. -/
def kaggleHint : String := "You need to setup up your kaggle api keys."

/-- The shared download block: if the data directory already exists nothing
happens; otherwise authenticate (re-raising failure) and download.  Returns
the new file system and the download / authentication counts. -/
def downloadPhase (env : KaggleEnv) (dataDir : List String) (fs0 : FS) :
    Except OSErr (FS × Nat × Nat) :=
  if pathExists fs0 dataDir then Except.ok (fs0, 0, 0)
  else
    match env.auth with
    | Except.error e => Except.error e
    | Except.ok _ => Except.ok (env.download fs0, 1, 1)

/-- The class-map construction loop shared by all three normalizers: for each
expected class in order, fail with the missing-class error if no entry exists
at `root/<class>`, otherwise glob its files (possibly recursively). -/
def buildClassMap (fs : FS) (root : List String) (ext : String)
    (recursive : Bool) : List String → Except DsErr ClassMapFS
  | [] => Except.ok []
  | c :: rest =>
    if pathExists fs (root ++ [c]) then
      match buildClassMap fs root ext recursive rest with
      | Except.ok m => Except.ok ((c, globFiles fs (root ++ [c]) ext recursive) :: m)
      | Except.error e => Except.error e
    else Except.error (DsErr.missingClass c)

def yogaDataDir : List String := ["data", "yoga"]

def yogaClasses : List String := ["Downdog", "Warrior2", "Tree", "Plank", "Goddess"]

def yogaWrapper : List String := yogaDataDir ++ ["YogaPoses"]

/-- The wrapper-removal step of `get_yoga_dataset` (lines 36–41): if the
`YogaPoses` wrapper exists, move each of its directory children to the top of
the data directory, then `rmtree` the wrapper. -/
def dewrapYoga (fs : FS) : FS :=
  if pathExists fs yogaWrapper then
    rmtreeIE
      ((childDirNames fs yogaWrapper).foldl
        (fun acc n => fsMove acc (yogaWrapper ++ [n]) (yogaDataDir ++ [n])) fs)
      yogaWrapper
  else fs

/-- Number of `shutil.move` calls the wrapper-removal step performs. -/
def yogaMoves (fs : FS) : Nat :=
  if pathExists fs yogaWrapper then (childDirNames fs yogaWrapper).length else 0

/-- `get_yoga_dataset`: download on demand, remove the `YogaPoses` wrapper,
then build the class map over the configured class list with a non-recursive
`*.jpg` glob. -/
def runYoga (env : KaggleEnv) (fs0 : FS) : RunOut :=
  match downloadPhase env yogaDataDir fs0 with
  | Except.error e =>
    { result := Except.error (DsErr.auth e), fs := fs0, downloads := 0,
      moves := 0, authCalls := 1, messages := [kaggleHint] }
  | Except.ok (fs1, dls, auths) =>
    { result := buildClassMap (dewrapYoga fs1) yogaDataDir "jpg" false yogaClasses,
      fs := dewrapYoga fs1, downloads := dls, moves := yogaMoves fs1,
      authCalls := auths, messages := [] }

def intelDataDir : List String := ["data", "intel"]

def intelClasses : List String :=
  ["buildings", "sea", "street", "mountain", "glacier", "forest"]

/-- `get_intel_scene_dataset`: download on demand, no restructuring, build the
class map under `seg_<split>/seg_<split>` with a non-recursive `*.jpg` glob. -/
def runIntel (env : KaggleEnv) (split : String) (fs0 : FS) : RunOut :=
  match downloadPhase env intelDataDir fs0 with
  | Except.error e =>
    { result := Except.error (DsErr.auth e), fs := fs0, downloads := 0,
      moves := 0, authCalls := 1, messages := [kaggleHint] }
  | Except.ok (fs1, dls, auths) =>
    let folder := "seg_" ++ split
    { result := buildClassMap fs1 (intelDataDir ++ [folder, folder]) "jpg" false
        intelClasses,
      fs := fs1, downloads := dls, moves := 0, authCalls := auths,
      messages := [] }

def fruitsDataDir : List String := ["data", "fruits"]

def fruitsClasses : List String :=
  ["cucumber", "zucchini", "apple_red_delicios", "apple_braeburn", "pear",
   "carrot", "cabbage_white", "apple_granny_smith", "apple_golden",
   "apple_crimson_snow", "apple", "zucchini_dark", "apple_red_yellow",
   "eggplant_violet", "apple_red", "apple_pink_lady", "apple_hit",
   "apple_rotten"]

/-- Codepoint-wise lexicographic comparison of character lists, matching the
ordering Python's `sorted` uses on these ASCII strings. -/
def charListLe : List Char → List Char → Bool
  | [], _ => true
  | _ :: _, [] => false
  | c :: cs, d :: ds =>
    if c.toNat < d.toNat then true
    else if d.toNat < c.toNat then false
    else charListLe cs ds

def strLe (a b : String) : Bool := charListLe a.data b.data

def insertSorted (x : String) : List String → List String
  | [] => [x]
  | y :: ys => if strLe x y then x :: y :: ys else y :: insertSorted x ys

/-- Stable sort of a string list, modelling Python's `sorted`. -/
def sortStrings : List String → List String
  | [] => []
  | x :: xs => insertSorted x (sortStrings xs)

/-- `pathlib.PurePath.stem`: the final component without its last suffix; the
suffix is non-empty only when the last dot sits strictly inside the name. -/
def stemOf (n : String) : String :=
  let cs := n.data
  match (cs.enum.filterMap (fun ic => if ic.2 = Char.ofNat 46 then some ic.1 else none)).getLast? with
  | some i => if 0 < i ∧ i < cs.length - 1 then String.mk (cs.take i) else n
  | none => n

/-- `"_".join(stem.split("_")[:-1])`: the class name obtained by stripping the
trailing variant component. -/
def variantCls (stem : String) : String :=
  String.intercalate "_" ((stem.splitOn "_").dropLast)

/-- `pathlib` path concatenation with a possibly empty component (an empty
string component is dropped). -/
def appendPart (p : List String) (c : String) : List String :=
  if c = "" then p else p ++ [c]

def fruitsArchiveRoot : List String :=
  fruitsDataDir ++ ["fruits-360-original-size", "fruits-360-original-size"]

/-- One split's pass of the fruits merge loop (lines 145–150): every child of
the archive split folder is moved under `data/fruits/<split>/<class>/<stem>`,
creating the class folder first; the move count is threaded through. -/
def fruitsMergeStep (st : FS × Nat) (folder : String) : FS × Nat :=
  (childNames st.1 (fruitsArchiveRoot ++ [folder])).foldl
    (fun st2 name =>
      let cls := variantCls (stemOf name)
      let destDir := appendPart (fruitsDataDir ++ [folder]) cls
      let fsA := mkdirs st2.1 destDir
      (fsMove fsA (fruitsArchiveRoot ++ [folder, name]) (destDir ++ [stemOf name]),
       st2.2 + 1))
    st

/-- The whole post-download merge of `get_fruits_dataset`. -/
def fruitsMerge (fs : FS) : FS × Nat :=
  ["Training", "Validation", "Test"].foldl fruitsMergeStep (fs, 0)

/-- `get_fruits_dataset`: download on demand (the merge runs only inside the
download branch), then build the class map over the *sorted* configured class
list with a recursive `**/*.jpg` glob under `data/fruits/<split>`. -/
def runFruits (env : KaggleEnv) (split : String) (fs0 : FS) : RunOut :=
  match downloadPhase env fruitsDataDir fs0 with
  | Except.error e =>
    { result := Except.error (DsErr.auth e), fs := fs0, downloads := 0,
      moves := 0, authCalls := 1, messages := [kaggleHint] }
  | Except.ok (fs1, dls, auths) =>
    let merged := if dls = 0 then (fs1, 0) else fruitsMerge fs1
    { result := buildClassMap merged.1 (fruitsDataDir ++ [split]) "jpg" true
        (sortStrings fruitsClasses),
      fs := merged.1, downloads := dls, moves := merged.2, authCalls := auths,
      messages := [] }

/-! ## Inference marshalling (`src/utils/inference.py`)

The pretrained CLIP model is the external capability.  For classification the
joint forward pass is modelled by a logit function `logits : α → String → ℚ`
(image, prompt text ↦ similarity score), and the real exponential inside the
row-wise softmax by an abstract positive weight `expf : ℚ → ℚ`; neither
choice affects any marshalling property below.  For embedding extraction the
image-feature path is modelled by `embedVec : α → List ℚ` (image ↦ feature
vector).  Image files are abstract values of a type `α`. -/

/-- A class map as the inference helpers consume it: insertion-ordered
association list from class name to its image files. -/
abbrev ClassMap (α : Type) := List (String × List α)

/-- Total number of files in a class map:
`sum(len(files) for files in class_map.values())`. -/
def classTotal {α : Type} (cm : ClassMap α) : Nat :=
  (cm.map (fun cf => cf.2.length)).sum

/-- Row-wise softmax with an abstract weight function standing for `exp`. -/
def softmaxWith (expf : ℚ → ℚ) (row : List ℚ) : List ℚ :=
  let s := (row.map expf).sum
  row.map (fun x => expf x / s)

/-- `numpy.argmax` worker: first index attaining the maximum, scanning left to
right with strict improvement. -/
def argmaxGo (best : ℚ) (bi i : Nat) : List ℚ → Nat
  | [] => bi
  | y :: ys => if best < y then argmaxGo y i (i + 1) ys else argmaxGo best bi (i + 1) ys

/-- `numpy.argmax` over one row: the first index of the maximal entry; on an
empty row numpy raises, modelled by `none`. -/
def argmaxQ : List ℚ → Option Nat
  | [] => none
  | x :: xs => some (argmaxGo x 0 1 xs)

/-- Map a fallible step over a list, aborting at the first failure (the loop
body raising an exception). -/
def mapOpt {α β : Type} (f : α → Option β) : List α → Option (List β)
  | [] => some []
  | x :: xs =>
    match f x, mapOpt f xs with
    | some y, some ys => some (y :: ys)
    | _, _ => none

/-- The ground-truth label chunks: iteration `i` of the `enumerate` loop
contributes `len(files) * [i]`.  The first parameter is the index of the next
class. -/
def labelChunks {α : Type} : Nat → ClassMap α → List (List Nat)
  | _, [] => []
  | i, (_, fs) :: rest => List.replicate fs.length i :: labelChunks (i + 1) rest

/-- The softmaxed score row for one image: logits against every prompt in
order, then the row-wise softmax. -/
def probRow {α : Type} (logits : α → String → ℚ) (expf : ℚ → ℚ)
    (prompts : List String) (img : α) : List ℚ :=
  softmaxWith expf (prompts.map (fun t => logits img t))

/-- The `preds` accumulator of `evaluate_prompt_set_for_classes`: per class in
order, the argmax of each image's softmaxed score row, flattened. -/
def evalPreds {α : Type} (logits : α → String → ℚ) (expf : ℚ → ℚ)
    (prompts : List String) : ClassMap α → Option (List Nat)
  | [] => some []
  | (_, fs) :: rest =>
    match mapOpt (fun p => argmaxQ (probRow logits expf prompts p)) fs,
        evalPreds logits expf prompts rest with
    | some ps, some rs => some (ps ++ rs)
    | _, _ => none

/-- `evaluate_prompt_set_for_classes`: for each class in class-map order, run
all its images against the full prompt list, softmax each image's score row
and take the per-row argmax; labels are `len(files) * [i]` per class.  `none`
models the call raising. -/
def evaluate_prompt_set_for_classes {α : Type} (logits : α → String → ℚ)
    (expf : ℚ → ℚ) (cm : ClassMap α) (prompts : List String) :
    Option (List Nat × List Nat) :=
  match evalPreds logits expf prompts cm with
  | some ps => some (ps, (labelChunks 0 cm).flatten)
  | none => none

/-- The per-class embedding batches: one matrix (list of rows) per class, a
row per image in file order. -/
def embedBatches {α : Type} (embedVec : α → List ℚ) : ClassMap α →
    List (List (List ℚ))
  | [] => []
  | (_, fs) :: rest => fs.map embedVec :: embedBatches embedVec rest

/-- `numpy.vstack`: fails on an empty list of arrays, and on ragged rows;
otherwise concatenates the batches vertically. -/
def vstackQ (mats : List (List (List ℚ))) : Option (List (List ℚ)) :=
  match mats with
  | [] => none
  | _ =>
    match mats.flatten with
    | [] => some []
    | r :: rs => if rs.all (fun x => decide (x.length = r.length)) then some (r :: rs) else none

/-- `numpy.hstack` on a list of 1-D integer arrays: fails on an empty list,
otherwise concatenates. -/
def hstackN (chunks : List (List Nat)) : Option (List Nat) :=
  match chunks with
  | [] => none
  | _ => some chunks.flatten

/-- `get_embeddings_per_class`: collect one embedding batch and one label
chunk per class, then `vstack` the batches and `hstack` the labels.  `none`
models the call raising (in particular `np.vstack([])` on an empty class
map). -/
def get_embeddings_per_class {α : Type} (embedVec : α → List ℚ)
    (cm : ClassMap α) : Option (List (List ℚ) × List Nat) :=
  match vstackQ (embedBatches embedVec cm), hstackN (labelChunks 0 cm) with
  | some e, some l => some (e, l)
  | _, _ => none

/-! ## Concrete fixtures

Small closed file systems and environments used to exercise the definitions
at concrete inputs. -/

/-- A directory entry. -/
def dirE (p : List String) : FSEntry := ⟨p, true⟩

/-- A Kaggle environment whose authentication succeeds and whose download does
nothing (never exercised on populated storage). -/
def envOkId : KaggleEnv := ⟨Except.ok (), id⟩

/-- The `OSError` used to exercise the authentication-failure path. -/
def credErr : OSErr := ⟨"Could not find kaggle.json"⟩

/-- A Kaggle environment whose authentication fails. -/
def envAuthFail : KaggleEnv := ⟨Except.error credErr, id⟩

/-- Yoga storage populated and de-wrapped, with all five class folders present
but none containing any `.jpg` file. -/
def fsYogaEmptyClasses : FS :=
  [dirE ["data"], dirE ["data", "yoga"], dirE ["data", "yoga", "Downdog"],
   dirE ["data", "yoga", "Warrior2"], dirE ["data", "yoga", "Tree"],
   dirE ["data", "yoga", "Plank"], dirE ["data", "yoga", "Goddess"]]

/-- Fruits storage populated, with all eighteen class folders present under
`data/fruits/train` and no image files. -/
def fsFruitsStub : FS :=
  [dirE ["data"], dirE ["data", "fruits"], dirE ["data", "fruits", "train"]] ++
  fruitsClasses.map (fun c => dirE ["data", "fruits", "train", c])

/-- Intel storage populated, with all six class folders present under
`data/intel/seg_train/seg_train` and no image files. -/
def fsIntelStub : FS :=
  [dirE ["data"], dirE ["data", "intel"], dirE ["data", "intel", "seg_train"],
   dirE ["data", "intel", "seg_train", "seg_train"]] ++
  intelClasses.map (fun c => dirE ["data", "intel", "seg_train", "seg_train", c])

/-- All three data directories present, de-wrapped, with no class folders
(enough to exercise the populated download-skipping paths). -/
def fsAllPopulated : FS :=
  [dirE ["data"], dirE ["data", "yoga"], dirE ["data", "intel"],
   dirE ["data", "fruits"]]

/-- Yoga storage as a fresh archive extraction leaves it: the five class
folders nested under the `YogaPoses` wrapper. -/
def fsYogaWrapped : FS :=
  [dirE ["data"], dirE ["data", "yoga"], dirE ["data", "yoga", "YogaPoses"]] ++
  yogaClasses.map (fun c => dirE ["data", "yoga", "YogaPoses", c])

/-! ## Helper lemmas: inference marshalling -/

theorem softmaxWith_length (expf : ℚ → ℚ) (row : List ℚ) :
    (softmaxWith expf row).length = row.length := by
  simp [softmaxWith]

theorem probRow_length {α : Type} (logits : α → String → ℚ) (expf : ℚ → ℚ)
    (prompts : List String) (p : α) :
    (probRow logits expf prompts p).length = prompts.length := by
  simp [probRow, softmaxWith_length]

theorem argmaxGo_lt (ys : List ℚ) : ∀ (best : ℚ) (bi i : Nat), bi < i →
    argmaxGo best bi i ys < i + ys.length := by
  induction ys with
  | nil => intro best bi i h; simpa [argmaxGo] using h
  | cons y ys ih =>
    intro best bi i h
    simp only [argmaxGo, List.length_cons]
    by_cases hc : best < y
    · simp only [hc, if_true]
      have := ih y i (i + 1) (Nat.lt_succ_self i)
      omega
    · simp only [hc, if_false]
      have := ih best bi (i + 1) (Nat.lt_succ_of_lt h)
      omega

theorem argmaxQ_lt {row : List ℚ} {k : Nat} (h : argmaxQ row = some k) :
    k < row.length := by
  cases row with
  | nil => simp [argmaxQ] at h
  | cons x xs =>
    simp only [argmaxQ, Option.some.injEq] at h
    subst h
    have := argmaxGo_lt xs x 0 1 Nat.zero_lt_one
    simp only [List.length_cons]
    omega

theorem mapOpt_length {α β : Type} (f : α → Option β) :
    ∀ {xs : List α} {ys : List β}, mapOpt f xs = some ys → ys.length = xs.length := by
  intro xs
  induction xs with
  | nil => intro ys h; simp [mapOpt] at h; simp [← h]
  | cons x xs ih =>
    intro ys h
    simp only [mapOpt] at h
    cases hx : f x with
    | none => rw [hx] at h; simp at h
    | some y =>
      rw [hx] at h
      cases hr : mapOpt f xs with
      | none => rw [hr] at h; simp at h
      | some ys0 =>
        rw [hr] at h
        simp only [Option.some.injEq] at h
        subst h
        simp [ih hr]

theorem mapOpt_mem {α β : Type} (f : α → Option β) :
    ∀ {xs : List α} {ys : List β}, mapOpt f xs = some ys →
      ∀ y ∈ ys, ∃ x ∈ xs, f x = some y := by
  intro xs
  induction xs with
  | nil => intro ys h; simp [mapOpt] at h; subst h; simp
  | cons x xs ih =>
    intro ys h
    simp only [mapOpt] at h
    cases hx : f x with
    | none => rw [hx] at h; simp at h
    | some y0 =>
      rw [hx] at h
      cases hr : mapOpt f xs with
      | none => rw [hr] at h; simp at h
      | some ys0 =>
        rw [hr] at h
        simp only [Option.some.injEq] at h
        subst h
        intro y hy
        rcases List.mem_cons.mp hy with hy | hy
        · exact ⟨x, List.mem_cons_self x xs, hy ▸ hx⟩
        · rcases ih hr y hy with ⟨x0, hx0, hfx0⟩
          exact ⟨x0, List.mem_cons_of_mem x hx0, hfx0⟩

theorem classTotal_cons {α : Type} (c : String) (fs : List α) (rest : ClassMap α) :
    classTotal ((c, fs) :: rest) = fs.length + classTotal rest := by
  simp [classTotal]

theorem labelChunks_flatten_length {α : Type} :
    ∀ (cm : ClassMap α) (b : Nat), ((labelChunks b cm).flatten).length = classTotal cm := by
  intro cm
  induction cm with
  | nil => intro b; simp [labelChunks, classTotal]
  | cons cf rest ih =>
    intro b
    obtain ⟨c, fs⟩ := cf
    simp [labelChunks, classTotal_cons, ih]

theorem evalPreds_length {α : Type} (logits : α → String → ℚ) (expf : ℚ → ℚ)
    (prompts : List String) :
    ∀ {cm : ClassMap α} {ps : List Nat},
      evalPreds logits expf prompts cm = some ps → ps.length = classTotal cm := by
  intro cm
  induction cm with
  | nil => intro ps h; simp [evalPreds] at h; subst h; simp [classTotal]
  | cons cf rest ih =>
    intro ps h
    obtain ⟨c, fs⟩ := cf
    simp only [evalPreds] at h
    cases hm : mapOpt (fun p => argmaxQ (probRow logits expf prompts p)) fs with
    | none => rw [hm] at h; simp at h
    | some cps =>
      rw [hm] at h
      cases hr : evalPreds logits expf prompts rest with
      | none => rw [hr] at h; simp at h
      | some rps =>
        rw [hr] at h
        simp only [Option.some.injEq] at h
        subst h
        simp [classTotal_cons, mapOpt_length _ hm, ih hr]

theorem evalPreds_bound {α : Type} (logits : α → String → ℚ) (expf : ℚ → ℚ)
    (prompts : List String) :
    ∀ {cm : ClassMap α} {ps : List Nat},
      evalPreds logits expf prompts cm = some ps →
      ∀ q ∈ ps, q < prompts.length := by
  intro cm
  induction cm with
  | nil => intro ps h; simp [evalPreds] at h; subst h; simp
  | cons cf rest ih =>
    intro ps h q hq
    obtain ⟨c, fs⟩ := cf
    simp only [evalPreds] at h
    cases hm : mapOpt (fun p => argmaxQ (probRow logits expf prompts p)) fs with
    | none => rw [hm] at h; simp at h
    | some cps =>
      rw [hm] at h
      cases hr : evalPreds logits expf prompts rest with
      | none => rw [hr] at h; simp at h
      | some rps =>
        rw [hr] at h
        simp only [Option.some.injEq] at h
        subst h
        rcases List.mem_append.mp hq with hq | hq
        · rcases mapOpt_mem _ hm q hq with ⟨p, _, hp⟩
          have := argmaxQ_lt hp
          rwa [probRow_length] at this
        · exact ih hr q hq

theorem labelChunks_getElem {α : Type} :
    ∀ (cm : ClassMap α) (b i : Nat),
      (labelChunks b cm)[i]? = cm[i]?.map (fun cf => List.replicate cf.2.length (b + i)) := by
  intro cm
  induction cm with
  | nil => intro b i; simp [labelChunks]
  | cons cf rest ih =>
    intro b i
    obtain ⟨c, fs⟩ := cf
    cases i with
    | zero => simp [labelChunks]
    | succ i =>
      simp only [labelChunks, List.getElem?_cons_succ, ih rest.length.succ]
      rw [ih (b + 1) i]
      have : b + 1 + i = b + (i + 1) := by omega
      rw [this]

theorem embedBatches_getElem {α : Type} (embedVec : α → List ℚ) :
    ∀ (cm : ClassMap α) (i : Nat),
      (embedBatches embedVec cm)[i]? = cm[i]?.map (fun cf => cf.2.map embedVec) := by
  intro cm
  induction cm with
  | nil => intro i; simp [embedBatches]
  | cons cf rest ih =>
    intro i
    obtain ⟨c, fs⟩ := cf
    cases i with
    | zero => simp [embedBatches]
    | succ i => simp [embedBatches, ih]

theorem labelChunks_map_length {α : Type} :
    ∀ (cm : ClassMap α) (b : Nat),
      (labelChunks b cm).map List.length = cm.map (fun cf => cf.2.length) := by
  intro cm
  induction cm with
  | nil => intro b; simp [labelChunks]
  | cons cf rest ih =>
    intro b
    obtain ⟨c, fs⟩ := cf
    simp [labelChunks, ih]

theorem embedBatches_map_length {α : Type} (embedVec : α → List ℚ) :
    ∀ (cm : ClassMap α),
      (embedBatches embedVec cm).map List.length = cm.map (fun cf => cf.2.length) := by
  intro cm
  induction cm with
  | nil => simp [embedBatches]
  | cons cf rest ih =>
    obtain ⟨c, fs⟩ := cf
    simp [embedBatches, ih]

/-- Indexing into the flattening of a chunk list: position
`(sum of lengths of the first i chunks) + j` reads position `j` of chunk `i`. -/
theorem flatten_chunk_getElem {β : Type} :
    ∀ (chunks : List (List β)) (i : Nat) (ch : List β) (j : Nat),
      chunks[i]? = some ch → j < ch.length →
      chunks.flatten[(((chunks.take i).map List.length).sum + j)]? = ch[j]? := by
  intro chunks
  induction chunks with
  | nil => intro i ch j h; simp at h
  | cons c0 rest ih =>
    intro i ch j h hj
    cases i with
    | zero =>
      simp only [List.getElem?_cons_zero, Option.some.injEq] at h
      subst h
      simp only [List.take_zero, List.map_nil, List.sum_nil, Nat.zero_add,
        List.flatten_cons]
      rw [List.getElem?_append]
      simp [hj]
    | succ i =>
      simp only [List.getElem?_cons_succ] at h
      simp only [List.take_succ_cons, List.map_cons, List.sum_cons,
        List.flatten_cons]
      rw [Nat.add_assoc, List.getElem?_append_right (by omega)]
      rw [Nat.add_sub_cancel_left]
      exact ih i ch j h hj

theorem vstackQ_eq_flatten {mats : List (List (List ℚ))} {rows : List (List ℚ)}
    (h : vstackQ mats = some rows) : rows = mats.flatten := by
  cases mats with
  | nil => simp [vstackQ] at h
  | cons m ms =>
    simp only [vstackQ] at h
    cases hf : (m :: ms).flatten with
    | nil => rw [hf] at h; simp at h; simp [← h]
    | cons r rs =>
      rw [hf] at h
      by_cases hall : rs.all (fun x => decide (x.length = r.length)) = true
      · simp only [hall, if_true, Option.some.injEq] at h
        simp [← h]
      · simp only [hall, if_false] at h
        simp at h

theorem vstackQ_some {mats : List (List (List ℚ))} {D : Nat}
    (hne : mats ≠ []) (hrows : ∀ r ∈ mats.flatten, r.length = D) :
    vstackQ mats = some mats.flatten := by
  cases mats with
  | nil => exact absurd rfl hne
  | cons m ms =>
    simp only [vstackQ]
    cases hf : (m :: ms).flatten with
    | nil => simp
    | cons r rs =>
      have hr : r.length = D := hrows r (by rw [hf]; exact List.mem_cons_self r rs)
      have hall : rs.all (fun x => decide (x.length = r.length)) = true := by
        rw [List.all_eq_true]
        intro x hx
        have : x ∈ (m :: ms).flatten := by rw [hf]; exact List.mem_cons_of_mem r hx
        simp [hrows x this, hr]
      simp [hall]

theorem hstackN_eq_flatten {chunks : List (List Nat)} {l : List Nat}
    (h : hstackN chunks = some l) : l = chunks.flatten := by
  cases chunks with
  | nil => simp [hstackN] at h
  | cons c cs => simp only [hstackN, Option.some.injEq] at h; simp [← h]

theorem hstackN_some {chunks : List (List Nat)} (h : chunks ≠ []) :
    hstackN chunks = some chunks.flatten := by
  cases chunks with
  | nil => exact absurd rfl h
  | cons c cs => simp [hstackN]

/-- Every row of the flattened embedding batches is the embedding of some
image. -/
theorem embedBatches_flatten_mem {α : Type} (embedVec : α → List ℚ) :
    ∀ (cm : ClassMap α) (r : List ℚ), r ∈ (embedBatches embedVec cm).flatten →
      ∃ p : α, r = embedVec p := by
  intro cm
  induction cm with
  | nil => intro r hr; simp [embedBatches] at hr
  | cons cf rest ih =>
    intro r hr
    obtain ⟨c, fs⟩ := cf
    simp only [embedBatches, List.flatten_cons, List.mem_append] at hr
    rcases hr with hr | hr
    · rcases List.mem_map.mp hr with ⟨p, _, hp⟩
      exact ⟨p, hp.symm⟩
    · exact ih r hr

/-! ## Helper lemmas: file system and normalizers -/

theorem pathExists_iff {fs : FS} {p : List String} :
    pathExists fs p = true ↔ ∃ e ∈ fs, e.path = p := by
  simp [pathExists, List.any_eq_true]

theorem dirExists_iff {fs : FS} {p : List String} :
    dirExists fs p = true ↔ ∃ e ∈ fs, e.path = p ∧ e.isDir = true := by
  simp [dirExists, List.any_eq_true]

theorem dirExists_false_of_pathExists_false {fs : FS} {p : List String}
    (h : pathExists fs p = false) : dirExists fs p = false := by
  rw [Bool.eq_false_iff]
  intro hd
  rcases dirExists_iff.mp hd with ⟨e, he, hp, _⟩
  rw [Bool.eq_false_iff] at h
  exact h (pathExists_iff.mpr ⟨e, he, hp⟩)

theorem buildClassMap_keys {fs : FS} {root : List String} {ext : String}
    {recursive : Bool} :
    ∀ {cs : List String} {m : ClassMapFS},
      buildClassMap fs root ext recursive cs = Except.ok m →
      m.map Prod.fst = cs := by
  intro cs
  induction cs with
  | nil => intro m h; simp [buildClassMap] at h; simp [← h]
  | cons c rest ih =>
    intro m h
    simp only [buildClassMap] at h
    by_cases hp : pathExists fs (root ++ [c]) = true
    · rw [if_pos hp] at h
      cases hr : buildClassMap fs root ext recursive rest with
      | ok m0 =>
        rw [hr] at h
        simp only [Except.ok.injEq] at h
        subst h
        simp [ih hr]
      | error e => rw [hr] at h; simp at h
    · rw [if_neg hp] at h; simp at h

theorem buildClassMap_values {fs : FS} {root : List String} {ext : String}
    {recursive : Bool} :
    ∀ {cs : List String} {m : ClassMapFS},
      buildClassMap fs root ext recursive cs = Except.ok m →
      ∀ cf ∈ m, cf.2 = globFiles fs (root ++ [cf.1]) ext recursive := by
  intro cs
  induction cs with
  | nil => intro m h; simp [buildClassMap] at h; subst h; simp
  | cons c rest ih =>
    intro m h
    simp only [buildClassMap] at h
    by_cases hp : pathExists fs (root ++ [c]) = true
    · rw [if_pos hp] at h
      cases hr : buildClassMap fs root ext recursive rest with
      | ok m0 =>
        rw [hr] at h
        simp only [Except.ok.injEq] at h
        subst h
        intro cf hcf
        rcases List.mem_cons.mp hcf with hcf | hcf
        · subst hcf; rfl
        · exact ih hr cf hcf
      | error e => rw [hr] at h; simp at h
    · rw [if_neg hp] at h; simp at h

theorem buildClassMap_missing {fs : FS} {root : List String} {ext : String}
    {recursive : Bool} :
    ∀ {cs : List String}, (∃ c ∈ cs, pathExists fs (root ++ [c]) = false) →
      ∃ c ∈ cs, pathExists fs (root ++ [c]) = false ∧
        buildClassMap fs root ext recursive cs = Except.error (DsErr.missingClass c) := by
  intro cs
  induction cs with
  | nil => rintro ⟨c, hc, _⟩; simp at hc
  | cons c rest ih =>
    rintro ⟨c0, hc0, hmiss⟩
    by_cases hp : pathExists fs (root ++ [c]) = true
    · rcases List.mem_cons.mp hc0 with hc0 | hc0
      · subst hc0; rw [hp] at hmiss; simp at hmiss
      · rcases ih ⟨c0, hc0, hmiss⟩ with ⟨c1, hc1, hm1, hb1⟩
        refine ⟨c1, List.mem_cons_of_mem c hc1, hm1, ?_⟩
        simp only [buildClassMap, if_pos hp, hb1]
    · refine ⟨c, List.mem_cons_self c rest, Bool.eq_false_iff.mpr hp, ?_⟩
      simp only [buildClassMap, if_neg hp]

/-- When the data directory is already populated, the download block is a
no-op. -/
theorem downloadPhase_populated (env : KaggleEnv) {dataDir : List String}
    {fs0 : FS} (h : pathExists fs0 dataDir = true) :
    downloadPhase env dataDir fs0 = Except.ok (fs0, 0, 0) := by
  simp [downloadPhase, h]

/-- When the data directory is absent and authentication fails, the download
block re-raises that same error. -/
theorem downloadPhase_authFail {env : KaggleEnv} {dataDir : List String}
    {fs0 : FS} {e : OSErr} (h : pathExists fs0 dataDir = false)
    (ha : env.auth = Except.error e) :
    downloadPhase env dataDir fs0 = Except.error e := by
  simp [downloadPhase, h, ha]

/-- On an already de-wrapped file system the wrapper-removal step is the
identity. -/
theorem dewrapYoga_clean {fs : FS} (h : pathExists fs yogaWrapper = false) :
    dewrapYoga fs = fs := by
  simp [dewrapYoga, h]

theorem yogaMoves_clean {fs : FS} (h : pathExists fs yogaWrapper = false) :
    yogaMoves fs = 0 := by
  simp [yogaMoves, h]

theorem isUnder_iff : ∀ (p q : List String), isUnder p q = true ↔ ∃ r, q = p ++ r := by
  intro p
  induction p with
  | nil => intro q; simp [isUnder]
  | cons a as ih =>
    intro q
    cases q with
    | nil =>
      simp only [isUnder, Bool.false_eq_true, false_iff]
      rintro ⟨r, hr⟩
      simp at hr
    | cons b bs =>
      simp only [isUnder, Bool.and_eq_true, decide_eq_true_eq, ih bs]
      constructor
      · rintro ⟨hab, r, hr⟩
        exact ⟨r, by simp [hab, hr]⟩
      · rintro ⟨r, hr⟩
        simp only [List.cons_append, List.cons.injEq] at hr
        exact ⟨hr.1.symm, r, hr.2⟩

theorem isUnder_refl (p : List String) : isUnder p p = true :=
  (isUnder_iff p p).mpr ⟨[], by simp⟩

theorem isUnder_length {p q : List String} (h : isUnder p q = true) :
    p.length ≤ q.length := by
  rcases (isUnder_iff p q).mp h with ⟨r, hr⟩
  simp [hr]

theorem isUnder_out (p s : List String) {q : List String}
    (h : isUnder (p ++ s) q = true) : isUnder p q = true := by
  rcases (isUnder_iff (p ++ s) q).mp h with ⟨r, hr⟩
  exact (isUnder_iff p q).mpr ⟨s ++ r, by simp [hr]⟩

theorem isUnder_append_same : ∀ (p q r : List String),
    isUnder (p ++ q) (p ++ r) = isUnder q r := by
  intro p
  induction p with
  | nil => intro q r; rfl
  | cons a as ih =>
    intro q r
    simp [isUnder, ih]

theorem isUnder_single {a b : String} : isUnder [a] [b] = true ↔ a = b := by
  simp [isUnder]

theorem rebaseEntry_of_not {src dst : List String} {e : FSEntry}
    (h : isUnder src e.path = false) : rebaseEntry src dst e = e := by
  simp [rebaseEntry, h]

theorem rebaseEntry_under {src dst r : List String} {e : FSEntry}
    (h : e.path = src ++ r) :
    rebaseEntry src dst e = { e with path := dst ++ r } := by
  have hu : isUnder src e.path = true := by
    rw [h]; exact (isUnder_iff src (src ++ r)).mpr ⟨r, rfl⟩
  simp only [rebaseEntry, hu, if_true]
  rw [h, List.drop_left]

theorem multiRebase_fix (w d : List String) :
    ∀ (cs : List String) (e : FSEntry),
      (∀ m ∈ cs, isUnder (w ++ [m]) e.path = false) →
      multiRebase w d cs e = e := by
  intro cs
  induction cs with
  | nil => intro e _; rfl
  | cons c rest ih =>
    intro e h
    simp only [multiRebase]
    rw [rebaseEntry_of_not (h c (List.mem_cons_self c rest))]
    exact ih e (fun m hm => h m (List.mem_cons_of_mem c hm))

theorem multiRebase_child (w d : List String) :
    ∀ (cs : List String) (n : String) (e : FSEntry),
      cs.Nodup → n ∈ cs →
      (∀ m ∈ cs, isUnder w (d ++ [m]) = false) →
      e.path = w ++ [n] →
      multiRebase w d cs e = ⟨d ++ [n], e.isDir⟩ := by
  intro cs
  induction cs with
  | nil => intro n e _ hn; simp at hn
  | cons c rest ih =>
    intro n e hnd hn hwd hp
    simp only [multiRebase]
    rcases List.mem_cons.mp hn with hn | hn
    · subst hn
      have hp0 : e.path = (w ++ [n]) ++ ([] : List String) := by simp [hp]
      rw [rebaseEntry_under hp0]
      have hfix : ∀ m ∈ rest,
          isUnder (w ++ [m])
            (({ e with path := (d ++ [n]) ++ ([] : List String) } : FSEntry)).path
            = false := by
        intro m hm
        simp only [List.append_nil]
        rw [Bool.eq_false_iff]
        intro habs
        have h1 : isUnder w (d ++ [n]) = true := isUnder_out w [m] habs
        rw [hwd n (List.mem_cons_self n rest)] at h1
        simp at h1
      rw [multiRebase_fix w d rest _ hfix]
      simp
    · have hne : c ≠ n := by
        intro hcn
        subst hcn
        exact (List.nodup_cons.mp hnd).1 hn
      rw [rebaseEntry_of_not ?hno]
      case hno =>
        rw [hp, show w ++ [n] = w ++ [n] ++ ([] : List String) by simp]
        rw [show w ++ [c] = w ++ ([c] : List String) by simp]
        rw [show w ++ [n] ++ ([] : List String) = w ++ ([n] : List String) by simp]
        rw [isUnder_append_same w [c] [n]]
        simp [isUnder, hne]
      exact ih n e (List.nodup_cons.mp hnd).2 hn
        (fun m hm => hwd m (List.mem_cons_of_mem c hm)) hp

theorem pathExists_map {fs : FS} {g : FSEntry → FSEntry} {p : List String} :
    pathExists (fs.map g) p = true ↔ ∃ e ∈ fs, (g e).path = p := by
  simp [pathExists, List.any_eq_true]

/-- The wrapper-removal fold is the pointwise relocation map, provided no
destination directory pre-exists. -/
theorem foldMove_eq_map (w d : List String) :
    ∀ (cs : List String) (fs : FS), cs.Nodup →
      (∀ n ∈ cs, pathExists fs (d ++ [n]) = false) →
      cs.foldl (fun acc n => fsMove acc (w ++ [n]) (d ++ [n])) fs
        = fs.map (multiRebase w d cs) := by
  intro cs
  induction cs with
  | nil =>
    intro fs _ _
    simp [multiRebase]
  | cons c rest ih =>
    intro fs hnd hnp
    have h1 : pathExists fs (d ++ [c]) = false := hnp c (List.mem_cons_self c rest)
    have h2 : dirExists fs (d ++ [c]) = false := dirExists_false_of_pathExists_false h1
    have hmv : fsMove fs (w ++ [c]) (d ++ [c])
        = fs.map (rebaseEntry (w ++ [c]) (d ++ [c])) := by
      simp [fsMove, h2]
    have hpres : ∀ n ∈ rest,
        pathExists (fs.map (rebaseEntry (w ++ [c]) (d ++ [c]))) (d ++ [n]) = false := by
      intro n hn
      rw [Bool.eq_false_iff]
      intro habs
      rcases pathExists_map.mp habs with ⟨e, he, hpe⟩
      by_cases hu : isUnder (w ++ [c]) e.path = true
      · rcases (isUnder_iff _ _).mp hu with ⟨r, hr⟩
        rw [rebaseEntry_under hr] at hpe
        simp only at hpe
        have : [c] ++ r = [n] := by
          have h3 : d ++ ([c] ++ r) = d ++ [n] := by simpa using hpe
          exact List.append_cancel_left h3
        have hcn : c = n := by
          cases r with
          | nil => simpa using this
          | cons x xs => simp at this
        subst hcn
        exact (List.nodup_cons.mp hnd).1 hn
      · rw [rebaseEntry_of_not (Bool.eq_false_iff.mpr hu)] at hpe
        have : pathExists fs (d ++ [n]) = true := pathExists_iff.mpr ⟨e, he, hpe⟩
        rw [hnp n (List.mem_cons_of_mem c hn)] at this
        simp at this
    calc (c :: rest).foldl (fun acc n => fsMove acc (w ++ [n]) (d ++ [n])) fs
        = rest.foldl (fun acc n => fsMove acc (w ++ [n]) (d ++ [n]))
            (fs.map (rebaseEntry (w ++ [c]) (d ++ [c]))) := by
          simp only [List.foldl_cons, hmv]
      _ = (fs.map (rebaseEntry (w ++ [c]) (d ++ [c]))).map (multiRebase w d rest) :=
          ih _ (List.nodup_cons.mp hnd).2 hpres
      _ = fs.map (multiRebase w d (c :: rest)) := by
          rw [List.map_map]
          rfl

theorem childDirNames_mem {fs : FS} {p : List String} {n : String}
    (h : n ∈ childDirNames fs p) :
    ∃ e ∈ fs, e.path = p ++ [n] ∧ e.isDir = true := by
  rcases List.mem_filterMap.mp h with ⟨e, he, hcond⟩
  by_cases hc : (e.isDir && decide (e.path.length = p.length + 1) && isUnder p e.path) = true
  · rw [if_pos hc] at hcond
    simp only [Bool.and_eq_true, decide_eq_true_eq] at hc
    obtain ⟨⟨hdir, hlen⟩, hund⟩ := hc
    rcases (isUnder_iff _ _).mp hund with ⟨r, hr⟩
    have hrlen : r.length = 1 := by
      rw [hr] at hlen
      simp at hlen
      omega
    rcases r with _ | ⟨x, xs⟩
    · simp at hrlen
    · rcases xs with _ | _
      · rw [hr] at hcond
        rw [List.getLast?_concat] at hcond
        simp only [Option.some.injEq] at hcond
        subst hcond
        exact ⟨e, he, hr, hdir⟩
      · simp at hrlen
  · rw [if_neg hc] at hcond
    simp at hcond

/-- The wrapper-removal step of `get_yoga_dataset`: in the wrapped scenario
(the wrapper directory exists, its child directory names are distinct, none is
itself named `YogaPoses`, and none clashes with an existing top-level path),
the wrapper is gone afterwards and every child directory sits at the top of
the data directory. -/
theorem dewrapYoga_spec {fs : FS}
    (hw : dirExists fs yogaWrapper = true)
    (hnd : (childDirNames fs yogaWrapper).Nodup)
    (hwn : "YogaPoses" ∉ childDirNames fs yogaWrapper)
    (hnc : ∀ n ∈ childDirNames fs yogaWrapper,
      pathExists fs (yogaDataDir ++ [n]) = false) :
    pathExists (dewrapYoga fs) yogaWrapper = false ∧
    ∀ n ∈ childDirNames fs yogaWrapper,
      dirExists (dewrapYoga fs) (yogaDataDir ++ [n]) = true := by
  have hpw : pathExists fs yogaWrapper = true := by
    rcases dirExists_iff.mp hw with ⟨e, he, hp, _⟩
    exact pathExists_iff.mpr ⟨e, he, hp⟩
  have hwd : ∀ m ∈ childDirNames fs yogaWrapper,
      isUnder yogaWrapper (yogaDataDir ++ [m]) = false := by
    intro m hm
    show isUnder (yogaDataDir ++ ["YogaPoses"]) (yogaDataDir ++ [m]) = false
    rw [isUnder_append_same]
    have : m ≠ "YogaPoses" := fun habs => hwn (habs ▸ hm)
    simp [isUnder, this.symm]
  have hfold := foldMove_eq_map yogaWrapper yogaDataDir
    (childDirNames fs yogaWrapper) fs hnd hnc
  have hwfix : ∀ e : FSEntry, e.path = yogaWrapper →
      multiRebase yogaWrapper yogaDataDir (childDirNames fs yogaWrapper) e = e := by
    intro e hp
    apply multiRebase_fix
    intro m _
    rw [Bool.eq_false_iff]
    intro habs
    have := isUnder_length habs
    rw [hp] at this
    simp at this
  have hdir1 : dirExists (fs.map
      (multiRebase yogaWrapper yogaDataDir (childDirNames fs yogaWrapper)))
      yogaWrapper = true := by
    rcases dirExists_iff.mp hw with ⟨e, he, hp, hd⟩
    refine dirExists_iff.mpr ⟨multiRebase yogaWrapper yogaDataDir
      (childDirNames fs yogaWrapper) e, List.mem_map_of_mem _ he, ?_⟩
    rw [hwfix e hp]
    exact ⟨hp, hd⟩
  have hdew : dewrapYoga fs = (fs.map
      (multiRebase yogaWrapper yogaDataDir (childDirNames fs yogaWrapper))).filter
        (fun e => !(isUnder yogaWrapper e.path)) := by
    rw [dewrapYoga, if_pos hpw, hfold, rmtreeIE, if_pos hdir1]
  constructor
  · rw [hdew, Bool.eq_false_iff]
    intro habs
    rcases pathExists_iff.mp habs with ⟨e, he, hp⟩
    have hmem := List.mem_filter.mp he
    rw [hp] at hmem
    rw [isUnder_refl] at hmem
    simpa using hmem.2
  · intro n hn
    rcases childDirNames_mem hn with ⟨e, he, hp, hd⟩
    have hchild := multiRebase_child yogaWrapper yogaDataDir
      (childDirNames fs yogaWrapper) n e hnd hn hwd hp
    rw [hdew]
    apply dirExists_iff.mpr
    refine ⟨⟨yogaDataDir ++ [n], e.isDir⟩, ?_, rfl, hd⟩
    apply List.mem_filter.mpr
    constructor
    · rw [← hchild]
      exact List.mem_map_of_mem _ he
    · simp [hwd n hn]

theorem argmaxQ_some_of_ne {row : List ℚ} (h : row ≠ []) :
    ∃ k, argmaxQ row = some k := by
  cases row with
  | nil => exact absurd rfl h
  | cons x xs => exact ⟨argmaxGo x 0 1 xs, rfl⟩

theorem mapOpt_total {α β : Type} (f : α → Option β) :
    ∀ (xs : List α), (∀ x ∈ xs, ∃ y, f x = some y) →
      ∃ ys, mapOpt f xs = some ys := by
  intro xs
  induction xs with
  | nil => intro _; exact ⟨[], rfl⟩
  | cons x xs ih =>
    intro h
    rcases h x (List.mem_cons_self x xs) with ⟨y, hy⟩
    rcases ih (fun x0 hx0 => h x0 (List.mem_cons_of_mem x hx0)) with ⟨ys, hys⟩
    exact ⟨y :: ys, by simp [mapOpt, hy, hys]⟩

theorem evalPreds_some {α : Type} (logits : α → String → ℚ) (expf : ℚ → ℚ)
    (prompts : List String) (hp : prompts ≠ []) :
    ∀ (cm : ClassMap α), ∃ ps, evalPreds logits expf prompts cm = some ps := by
  intro cm
  induction cm with
  | nil => exact ⟨[], rfl⟩
  | cons cf rest ih =>
    obtain ⟨c, fs⟩ := cf
    have hrow : ∀ p ∈ fs, ∃ k, argmaxQ (probRow logits expf prompts p) = some k := by
      intro p _
      apply argmaxQ_some_of_ne
      intro habs
      apply hp
      have := probRow_length logits expf prompts p
      rw [habs] at this
      exact List.eq_nil_of_length_eq_zero this.symm
    rcases mapOpt_total _ fs hrow with ⟨ps0, hps0⟩
    rcases ih with ⟨rs, hrs⟩
    exact ⟨ps0 ++ rs, by simp [evalPreds, hps0, hrs]⟩

/-! ## The claims -/

/-- C1, counterexample: `get_yoga_dataset` on storage where every configured
class folder exists but is empty returns a class map in which every key maps
to the empty sequence — it does not fail with the missing-class error, so
"every key maps to a non-empty sequence or the call fails" is false of the
code (only folder *existence* is checked, never non-emptiness). -/
theorem C1_counterexample :
    (runYoga envOkId fsYogaEmptyClasses).result
      = Except.ok [("Downdog", []), ("Warrior2", []), ("Tree", []),
          ("Plank", []), ("Goddess", [])] ∧
    ("Downdog", ([] : List (List String))) ∈
      [("Downdog", ([] : List (List String))), ("Warrior2", []), ("Tree", []),
       ("Plank", []), ("Goddess", [])] := by
  exact ⟨rfl, by decide⟩

/-- C1 (amended): for every class map a normalizer's construction loop
returns, every key in the configured class list is present (the keys are
exactly the configured list) and maps to the sequence of files discovered for
that class — which may be empty; and whenever some configured class folder is
missing, the call fails with the missing-class error instead of returning. -/
theorem C1_keys_present_or_missing_error (fs : FS) (root : List String)
    (ext : String) (recursive : Bool) (cs : List String) :
    (∀ m, buildClassMap fs root ext recursive cs = Except.ok m →
      m.map Prod.fst = cs ∧
      ∀ cf ∈ m, cf.2 = globFiles fs (root ++ [cf.1]) ext recursive) ∧
    ((∃ c ∈ cs, pathExists fs (root ++ [c]) = false) →
      ∃ c ∈ cs, buildClassMap fs root ext recursive cs
        = Except.error (DsErr.missingClass c)) := by
  constructor
  · intro m h
    exact ⟨buildClassMap_keys h, buildClassMap_values h⟩
  · intro hex
    rcases buildClassMap_missing hex with ⟨c, hc, _, hb⟩
    exact ⟨c, hc, hb⟩

theorem C1_witness :
    ((yogaClasses.map (fun c => (c, ([] : List (List String))))).map Prod.fst
        = yogaClasses ∧
      ∀ cf ∈ yogaClasses.map (fun c => (c, ([] : List (List String)))),
        cf.2 = globFiles fsYogaEmptyClasses (yogaDataDir ++ [cf.1]) "jpg" false) ∧
    ∃ c ∈ yogaClasses, buildClassMap ([] : FS) yogaDataDir "jpg" false yogaClasses
      = Except.error (DsErr.missingClass c) :=
  ⟨(C1_keys_present_or_missing_error fsYogaEmptyClasses yogaDataDir "jpg" false
      yogaClasses).1 _ rfl,
   (C1_keys_present_or_missing_error ([] : FS) yogaDataDir "jpg" false
      yogaClasses).2 ⟨"Downdog", by decide, by decide⟩⟩

/-- C2, counterexample: `get_fruits_dataset` iterates `sorted(classes)`, so on
populated storage it returns its keys in lexicographically sorted order, which
differs from the configured class-list order (the configured list starts with
"cucumber", the returned keys with "apple"). -/
theorem C2_counterexample :
    (runFruits envOkId "train" fsFruitsStub).result
      = Except.ok ((sortStrings fruitsClasses).map (fun c => (c, []))) ∧
    sortStrings fruitsClasses ≠ fruitsClasses := by
  exact ⟨rfl, by decide⟩

/-- C2 (amended): `get_yoga_dataset` and `get_intel_scene_dataset` return
their keys in the configured class-list order; `get_fruits_dataset` returns
its keys in lexicographically *sorted* order of the configured class list
(insertion order equals class-index order in each case, but for fruits that
order is the sorted one, not the configured list's). -/
theorem C2_key_order (env : KaggleEnv) (fs : FS) (split : String) :
    (∀ m, (runYoga env fs).result = Except.ok m → m.map Prod.fst = yogaClasses) ∧
    (∀ m, (runIntel env split fs).result = Except.ok m →
      m.map Prod.fst = intelClasses) ∧
    (∀ m, (runFruits env split fs).result = Except.ok m →
      m.map Prod.fst = sortStrings fruitsClasses) := by
  refine ⟨?_, ?_, ?_⟩
  · intro m h
    cases hdp : downloadPhase env yogaDataDir fs with
    | error e => simp [runYoga, hdp] at h
    | ok v =>
      obtain ⟨fs1, dls, auths⟩ := v
      simp only [runYoga, hdp] at h
      exact buildClassMap_keys h
  · intro m h
    cases hdp : downloadPhase env intelDataDir fs with
    | error e => simp [runIntel, hdp] at h
    | ok v =>
      obtain ⟨fs1, dls, auths⟩ := v
      simp only [runIntel, hdp] at h
      exact buildClassMap_keys h
  · intro m h
    cases hdp : downloadPhase env fruitsDataDir fs with
    | error e => simp [runFruits, hdp] at h
    | ok v =>
      obtain ⟨fs1, dls, auths⟩ := v
      simp only [runFruits, hdp] at h
      exact buildClassMap_keys h

theorem C2_witness :
    (yogaClasses.map (fun c => (c, ([] : List (List String))))).map Prod.fst
      = yogaClasses ∧
    (intelClasses.map (fun c => (c, ([] : List (List String))))).map Prod.fst
      = intelClasses ∧
    ((sortStrings fruitsClasses).map (fun c => (c, ([] : List (List String))))).map
      Prod.fst = sortStrings fruitsClasses :=
  ⟨(C2_key_order envOkId fsYogaEmptyClasses "train").1 _ rfl,
   (C2_key_order envOkId fsIntelStub "train").2.1 _ rfl,
   (C2_key_order envOkId fsFruitsStub "train").2.2 _ rfl⟩

/-- C3: on storage that is already populated (data directory present) and
already de-wrapped (no `YogaPoses` wrapper), every normalizer performs no
download and no move, leaves the file system untouched, and a second run
returns the identical class-map result (idempotence). -/
theorem C3_idempotent (env env2 : KaggleEnv) (split : String) (fs : FS) :
    (pathExists fs yogaDataDir = true → pathExists fs yogaWrapper = false →
      (runYoga env fs).downloads = 0 ∧ (runYoga env fs).moves = 0 ∧
      (runYoga env fs).fs = fs ∧
      (runYoga env2 ((runYoga env fs).fs)).result = (runYoga env fs).result) ∧
    (pathExists fs intelDataDir = true →
      (runIntel env split fs).downloads = 0 ∧ (runIntel env split fs).moves = 0 ∧
      (runIntel env split fs).fs = fs ∧
      (runIntel env2 split ((runIntel env split fs).fs)).result
        = (runIntel env split fs).result) ∧
    (pathExists fs fruitsDataDir = true →
      (runFruits env split fs).downloads = 0 ∧
      (runFruits env split fs).moves = 0 ∧
      (runFruits env split fs).fs = fs ∧
      (runFruits env2 split ((runFruits env split fs).fs)).result
        = (runFruits env split fs).result) := by
  refine ⟨?_, ?_, ?_⟩
  · intro h1 h2
    have hd := downloadPhase_populated env h1
    have hd2 := downloadPhase_populated env2 h1
    simp [runYoga, hd, hd2, dewrapYoga_clean h2, yogaMoves_clean h2]
  · intro h1
    have hd := downloadPhase_populated env h1
    have hd2 := downloadPhase_populated env2 h1
    simp [runIntel, hd, hd2]
  · intro h1
    have hd := downloadPhase_populated env h1
    have hd2 := downloadPhase_populated env2 h1
    simp [runFruits, hd, hd2]

theorem C3_witness :
    ((runYoga envOkId fsAllPopulated).downloads = 0 ∧
      (runYoga envOkId fsAllPopulated).moves = 0 ∧
      (runYoga envOkId fsAllPopulated).fs = fsAllPopulated ∧
      (runYoga envOkId ((runYoga envOkId fsAllPopulated).fs)).result
        = (runYoga envOkId fsAllPopulated).result) ∧
    ((runIntel envOkId "train" fsAllPopulated).downloads = 0 ∧
      (runIntel envOkId "train" fsAllPopulated).moves = 0 ∧
      (runIntel envOkId "train" fsAllPopulated).fs = fsAllPopulated ∧
      (runIntel envOkId "train" ((runIntel envOkId "train" fsAllPopulated).fs)).result
        = (runIntel envOkId "train" fsAllPopulated).result) ∧
    ((runFruits envOkId "train" fsAllPopulated).downloads = 0 ∧
      (runFruits envOkId "train" fsAllPopulated).moves = 0 ∧
      (runFruits envOkId "train" fsAllPopulated).fs = fsAllPopulated ∧
      (runFruits envOkId "train" ((runFruits envOkId "train" fsAllPopulated).fs)).result
        = (runFruits envOkId "train" fsAllPopulated).result) :=
  ⟨(C3_idempotent envOkId envOkId "train" fsAllPopulated).1 (by decide) (by decide),
   (C3_idempotent envOkId envOkId "train" fsAllPopulated).2.1 (by decide),
   (C3_idempotent envOkId envOkId "train" fsAllPopulated).2.2 (by decide)⟩

/-- C4: whenever `evaluate_prompt_set_for_classes` or
`get_embeddings_per_class` returns, the returned ground truth has length equal
to the sum over all classes of the number of files for that class. -/
theorem C4_ground_truth_length {α : Type} (logits : α → String → ℚ)
    (expf : ℚ → ℚ) (embedVec : α → List ℚ) (cm : ClassMap α)
    (prompts : List String) :
    (∀ ps ls, evaluate_prompt_set_for_classes logits expf cm prompts
        = some (ps, ls) → ls.length = classTotal cm) ∧
    (∀ E gt, get_embeddings_per_class embedVec cm = some (E, gt) →
      gt.length = classTotal cm) := by
  constructor
  · intro ps ls h
    simp only [evaluate_prompt_set_for_classes] at h
    cases hev : evalPreds logits expf prompts cm with
    | none => rw [hev] at h; simp at h
    | some ps0 =>
      rw [hev] at h
      simp only [Option.some.injEq, Prod.mk.injEq] at h
      rw [← h.2]
      exact labelChunks_flatten_length cm 0
  · intro E gt h
    simp only [get_embeddings_per_class] at h
    cases hv : vstackQ (embedBatches embedVec cm) with
    | none => rw [hv] at h; simp at h
    | some E0 =>
      rw [hv] at h
      cases hh : hstackN (labelChunks 0 cm) with
      | none => rw [hh] at h; simp at h
      | some L0 =>
        rw [hh] at h
        simp only [Option.some.injEq, Prod.mk.injEq] at h
        rw [← h.2, hstackN_eq_flatten hh]
        exact labelChunks_flatten_length cm 0

theorem C4_witness :
    ([0] : List Nat).length = classTotal [("a", (["x"] : List String))] ∧
    ([0] : List Nat).length = classTotal [("a", (["x"] : List String))] :=
  ⟨(C4_ground_truth_length (fun _ _ => (0 : ℚ)) (fun _ => 1) (fun _ => [0])
      [("a", ["x"])] ["p"]).1 [0] [0] rfl,
   (C4_ground_truth_length (fun _ _ => (0 : ℚ)) (fun _ => 1) (fun _ => [0])
      [("a", ["x"])] ["p"]).2 [[0]] [0] rfl⟩

/-- C5: on a non-empty class map, `get_embeddings_per_class` returns an
embeddings matrix of shape `(total_files, D)` for the model's fixed embedding
width `D`, and for every row index `classTotal (cm.take i) + j` (the row that
file `j` of class `i` contributed, in encounter order), the ground truth at
that index is `i` and the row is that file's embedding. -/
theorem C5_embed_shape_and_labels {α : Type} (embedVec : α → List ℚ) (D : Nat)
    (cm : ClassMap α) (hne : cm ≠ []) (hD : ∀ p : α, (embedVec p).length = D) :
    ∃ E gt, get_embeddings_per_class embedVec cm = some (E, gt) ∧
      E.length = classTotal cm ∧ gt.length = classTotal cm ∧
      (∀ r ∈ E, r.length = D) ∧
      (∀ (i j : Nat) (c : String) (fsI : List α) (p : α),
        cm[i]? = some (c, fsI) → fsI[j]? = some p →
        gt[classTotal (cm.take i) + j]? = some i ∧
        E[classTotal (cm.take i) + j]? = some (embedVec p)) := by
  have hrows : ∀ r ∈ (embedBatches embedVec cm).flatten, r.length = D := by
    intro r hr
    rcases embedBatches_flatten_mem embedVec cm r hr with ⟨p, hp⟩
    rw [hp]; exact hD p
  have hmats : embedBatches embedVec cm ≠ [] := by
    cases cm with
    | nil => exact absurd rfl hne
    | cons cf rest => obtain ⟨c, fs⟩ := cf; simp [embedBatches]
  have hchunks : labelChunks 0 cm ≠ [] := by
    cases cm with
    | nil => exact absurd rfl hne
    | cons cf rest => obtain ⟨c, fs⟩ := cf; simp [labelChunks]
  have hv := vstackQ_some hmats hrows
  have hh := hstackN_some hchunks
  refine ⟨(embedBatches embedVec cm).flatten, (labelChunks 0 cm).flatten,
    ?_, ?_, ?_, hrows, ?_⟩
  · simp [get_embeddings_per_class, hv, hh]
  · rw [List.length_flatten, embedBatches_map_length]
    rfl
  · exact labelChunks_flatten_length cm 0
  · intro i j c fsI p hcm hp
    have hj : j < fsI.length := (List.getElem?_eq_some.mp hp).1
    constructor
    · have hch : (labelChunks 0 cm)[i]? = some (List.replicate fsI.length i) := by
        rw [labelChunks_getElem cm 0 i, hcm]
        simp
      have := flatten_chunk_getElem (labelChunks 0 cm) i
        (List.replicate fsI.length i) j hch (by simpa using hj)
      have hsum : (((labelChunks 0 cm).take i).map List.length).sum
          = classTotal (cm.take i) := by
        rw [List.map_take, labelChunks_map_length, ← List.map_take]
        rfl
      rw [hsum] at this
      rw [this]
      simp [List.getElem?_replicate, hj]
    · have hch : (embedBatches embedVec cm)[i]? = some (fsI.map embedVec) := by
        rw [embedBatches_getElem embedVec cm i, hcm]
        rfl
      have := flatten_chunk_getElem (embedBatches embedVec cm) i
        (fsI.map embedVec) j hch (by simpa using hj)
      have hsum : (((embedBatches embedVec cm).take i).map List.length).sum
          = classTotal (cm.take i) := by
        rw [List.map_take, embedBatches_map_length, ← List.map_take]
        rfl
      rw [hsum] at this
      rw [this]
      rw [List.getElem?_map, hp]
      rfl

theorem C5_witness :
    ∃ E gt,
      get_embeddings_per_class (fun _ : String => ([0, 0] : List ℚ))
          [("a", ["x"])] = some (E, gt) ∧
      E.length = classTotal [("a", (["x"] : List String))] ∧
      gt.length = classTotal [("a", (["x"] : List String))] ∧
      (∀ r ∈ E, r.length = 2) ∧
      (∀ (i j : Nat) (c : String) (fsI : List String) (p : String),
        ([("a", ["x"])] : ClassMap String)[i]? = some (c, fsI) →
        fsI[j]? = some p →
        gt[classTotal (([("a", ["x"])] : ClassMap String).take i) + j]? = some i ∧
        E[classTotal (([("a", ["x"])] : ClassMap String).take i) + j]?
          = some ((fun _ : String => ([0, 0] : List ℚ)) p)) :=
  C5_embed_shape_and_labels (fun _ : String => ([0, 0] : List ℚ)) 2
    [("a", ["x"])] (by simp) (fun _ => rfl)

/-- C6: whenever `evaluate_prompt_set_for_classes` returns, predictions and
ground truth have equal length, and every predicted value lies in
`[0, len(prompts) - 1]`, because each prediction is the argmax of one
softmaxed row with one column per prompt. -/
theorem C6_prediction_range {α : Type} (logits : α → String → ℚ)
    (expf : ℚ → ℚ) (cm : ClassMap α) (prompts : List String)
    (ps ls : List Nat)
    (h : evaluate_prompt_set_for_classes logits expf cm prompts = some (ps, ls)) :
    ps.length = ls.length ∧ ∀ q ∈ ps, q < prompts.length := by
  simp only [evaluate_prompt_set_for_classes] at h
  cases hev : evalPreds logits expf prompts cm with
  | none => rw [hev] at h; simp at h
  | some ps0 =>
    rw [hev] at h
    simp only [Option.some.injEq, Prod.mk.injEq] at h
    obtain ⟨hps, hls⟩ := h
    subst hps
    constructor
    · rw [← hls, labelChunks_flatten_length cm 0]
      exact evalPreds_length logits expf prompts hev
    · exact evalPreds_bound logits expf prompts hev

theorem C6_witness :
    ([0] : List Nat).length = ([0] : List Nat).length ∧
    ∀ q ∈ ([0] : List Nat), q < (["p"] : List String).length :=
  C6_prediction_range (fun (_ : String) _ => (0 : ℚ)) (fun _ => 1)
    [("a", ["x"])] ["p"] [0] [0] rfl

/-- C7: no shuffling — for the class map
`{"Downdog": [d1.jpg, d2.jpg], "Tree": [t1.jpg]}` with the two yoga prompts,
`evaluate_prompt_set_for_classes` returns (for any model scores) ground truth
exactly `[0, 0, 1]` and a prediction list of length 3 whose every value is 0
or 1. -/
theorem C7_scenario (logits : String → String → ℚ) (expf : ℚ → ℚ) :
    ∃ ps, evaluate_prompt_set_for_classes logits expf
        [("Downdog", ["d1.jpg", "d2.jpg"]), ("Tree", ["t1.jpg"])]
        ["a downdog yoga pose", "a tree yoga pose"] = some (ps, [0, 0, 1]) ∧
      ps.length = 3 ∧ ∀ q ∈ ps, q = 0 ∨ q = 1 := by
  rcases evalPreds_some logits expf ["a downdog yoga pose", "a tree yoga pose"]
      (by simp) [("Downdog", ["d1.jpg", "d2.jpg"]), ("Tree", ["t1.jpg"])] with ⟨ps, hps⟩
  refine ⟨ps, ?_, ?_, ?_⟩
  · simp only [evaluate_prompt_set_for_classes, hps]
    rfl
  · rw [evalPreds_length logits expf _ hps]
    rfl
  · intro q hq
    have := evalPreds_bound logits expf _ hps q hq
    simp only [List.length_cons, List.length_nil] at this
    omega

/-- C10: on the empty class map the two inference helpers diverge:
`evaluate_prompt_set_for_classes` returns the pair of empty lists, while
`get_embeddings_per_class` fails (because `np.vstack` of an empty collection
of batches raises instead of producing an empty array). -/
theorem C10_empty_class_map_divergence {α : Type} (logits : α → String → ℚ)
    (expf : ℚ → ℚ) (prompts : List String) (embedVec : α → List ℚ) :
    evaluate_prompt_set_for_classes logits expf ([] : ClassMap α) prompts
      = some ([], []) ∧
    get_embeddings_per_class embedVec ([] : ClassMap α) = none :=
  ⟨rfl, rfl⟩

/-- C8: starting from populated, still-wrapped yoga storage (the class folders
nested under the `YogaPoses` wrapper, with distinct names, none itself named
`YogaPoses`, none clashing with an existing top-level path), after
`get_yoga_dataset`'s normalization the wrapper directory no longer exists and
every class folder sits directly under the dataset's storage root. -/
theorem C8_wrapper_removed (env : KaggleEnv) (fs : FS)
    (hpop : pathExists fs yogaDataDir = true)
    (hw : dirExists fs yogaWrapper = true)
    (hnd : (childDirNames fs yogaWrapper).Nodup)
    (hwn : "YogaPoses" ∉ childDirNames fs yogaWrapper)
    (hnc : ∀ n ∈ childDirNames fs yogaWrapper,
      pathExists fs (yogaDataDir ++ [n]) = false) :
    pathExists ((runYoga env fs).fs) yogaWrapper = false ∧
    ∀ n ∈ childDirNames fs yogaWrapper,
      dirExists ((runYoga env fs).fs) (yogaDataDir ++ [n]) = true := by
  have hd := downloadPhase_populated env hpop
  have hfs : (runYoga env fs).fs = dewrapYoga fs := by
    simp [runYoga, hd]
  rw [hfs]
  exact dewrapYoga_spec hw hnd hwn hnc

theorem C8_witness :
    pathExists ((runYoga envOkId fsYogaWrapped).fs) yogaWrapper = false ∧
    ∀ n ∈ childDirNames fsYogaWrapped yogaWrapper,
      dirExists ((runYoga envOkId fsYogaWrapped).fs) (yogaDataDir ++ [n]) = true :=
  C8_wrapper_removed envOkId fsYogaWrapped (by decide) (by decide) (by decide)
    (by decide) (by decide)

/-- C9: when the data directory is absent and Kaggle authentication fails,
every normalizer surfaces the very same error value to the caller (wrapped
only in the sum-type constructor distinguishing error kinds), prints the
human-readable guidance message, attempts authentication exactly once, and
performs no download. -/
theorem C9_auth_error_reraised (env : KaggleEnv) (split : String) (fs : FS)
    (e : OSErr) (ha : env.auth = Except.error e) :
    (pathExists fs yogaDataDir = false →
      (runYoga env fs).result = Except.error (DsErr.auth e) ∧
      (runYoga env fs).authCalls = 1 ∧ (runYoga env fs).downloads = 0 ∧
      kaggleHint ∈ (runYoga env fs).messages) ∧
    (pathExists fs intelDataDir = false →
      (runIntel env split fs).result = Except.error (DsErr.auth e) ∧
      (runIntel env split fs).authCalls = 1 ∧
      (runIntel env split fs).downloads = 0 ∧
      kaggleHint ∈ (runIntel env split fs).messages) ∧
    (pathExists fs fruitsDataDir = false →
      (runFruits env split fs).result = Except.error (DsErr.auth e) ∧
      (runFruits env split fs).authCalls = 1 ∧
      (runFruits env split fs).downloads = 0 ∧
      kaggleHint ∈ (runFruits env split fs).messages) := by
  refine ⟨?_, ?_, ?_⟩
  · intro h
    have hd := downloadPhase_authFail h ha
    simp [runYoga, hd]
  · intro h
    have hd := downloadPhase_authFail h ha
    simp [runIntel, hd]
  · intro h
    have hd := downloadPhase_authFail h ha
    simp [runFruits, hd]

theorem C9_witness :
    ((runYoga envAuthFail ([] : FS)).result = Except.error (DsErr.auth credErr) ∧
      (runYoga envAuthFail ([] : FS)).authCalls = 1 ∧
      (runYoga envAuthFail ([] : FS)).downloads = 0 ∧
      kaggleHint ∈ (runYoga envAuthFail ([] : FS)).messages) ∧
    ((runIntel envAuthFail "train" ([] : FS)).result
        = Except.error (DsErr.auth credErr) ∧
      (runIntel envAuthFail "train" ([] : FS)).authCalls = 1 ∧
      (runIntel envAuthFail "train" ([] : FS)).downloads = 0 ∧
      kaggleHint ∈ (runIntel envAuthFail "train" ([] : FS)).messages) ∧
    ((runFruits envAuthFail "train" ([] : FS)).result
        = Except.error (DsErr.auth credErr) ∧
      (runFruits envAuthFail "train" ([] : FS)).authCalls = 1 ∧
      (runFruits envAuthFail "train" ([] : FS)).downloads = 0 ∧
      kaggleHint ∈ (runFruits envAuthFail "train" ([] : FS)).messages) := by
  have h := C9_auth_error_reraised envAuthFail "train" ([] : FS) credErr rfl
  exact ⟨h.1 rfl, h.2.1 rfl, h.2.2 rfl⟩

end Clipsperiments
